import Mathlib

/-!
Shallow embedding of `docs/plot_latency.py` (function `parse_logfile`).

Strings are modelled as `List Char` (Python 2 `str`, one `Char` per byte of
the inputs we consider).  Python floats are modelled by exact rationals `ℚ`:
every claim of the specification is stated in ideal (exact) arithmetic, so the
embedding interprets float literals and float operations exactly.

`parse_logfile` performs, in source order:
  1. `data.split("\n", 6)[6]`        — drop the first 6 lines; `IndexError`
     when the file holds fewer than 6 newline characters;
  2. `.splitlines()`                 — split the remainder into lines,
     dropping a final empty fragment produced by a trailing newline;
  3. a loop `for i in xrange(1, len(timestamps))` evaluating
     `float(timestamps[i])`, `float(timestamps[0])`, `float(cycle_time)`
     and appending `abs(actual - expected)`; any conversion failure is a
     `ValueError`;
  4. `timestamps.pop(0)`             — `IndexError` on an empty list;
  5. `np.asarray(timestamps, dtype=float)` — converts the remaining strings,
     `ValueError` on a non-numeric entry;
  6. `x = x - x[0]`                  — `IndexError` on an empty array;
  7. `y = y * 1000000` and return `(x, y)`.
-/

/-- Python exceptions that `parse_logfile` can raise in the modelled paths. -/
inductive PyError where
  | indexError
  | valueError
deriving DecidableEq, Repr

deriving instance DecidableEq for Except

/-- Python whitespace accepted (and stripped) by `float()`. -/
def isPyWs (c : Char) : Bool :=
  c = ' ' || c = '\t' || c = '\n' || c = '\r' || c = '\x0b' || c = '\x0c'

/-- Strip leading and trailing whitespace, as `float()` does. -/
def pyStrip (s : List Char) : List Char :=
  ((s.dropWhile isPyWs).reverse.dropWhile isPyWs).reverse

/-- Numeric value of a string of decimal digits. -/
def natOfDigits (ds : List Char) : Nat :=
  ds.foldl (fun n c => 10 * n + (c.toNat - '0'.toNat)) 0

/-- Consume an optional sign; `true` means negative. -/
def parseSign : List Char → Bool × List Char
  | '+' :: r => (false, r)
  | '-' :: r => (true, r)
  | s => (false, s)

/-- Parse the exponent suffix of a float literal: sign and a nonempty digit
string, consuming the whole remainder. -/
def parseExp (m : ℚ) (s : List Char) : Option ℚ :=
  let p := parseSign s
  let d := p.2.span (·.isDigit)
  if d.1 = [] ∨ d.2 ≠ [] then none
  else
    some (m * (10 : ℚ) ^ (if p.1 then -(natOfDigits d.1 : ℤ) else (natOfDigits d.1 : ℤ)))

/-- Model of Python 2 `float(s)` restricted to finite decimal literals:
optional surrounding whitespace, an optional sign, decimal digits with an
optional fractional part (at least one digit overall), and an optional
decimal exponent.  The `inf`/`nan` spellings are outside the model, which
interprets literals exactly in `ℚ`.  `none` models a raised `ValueError`. -/
def pyFloat (s : List Char) : Option ℚ :=
  let s0 := pyStrip s
  let p := parseSign s0
  let d1 := p.2.span (·.isDigit)
  let d2 : List Char × List Char :=
    match d1.2 with
    | '.' :: r => r.span (·.isDigit)
    | _ => ([], d1.2)
  if d1.1 = [] ∧ d2.1 = [] then none
  else
    let mant : ℚ := (natOfDigits d1.1 : ℚ) + (natOfDigits d2.1 : ℚ) / (10 : ℚ) ^ d2.1.length
    let signed : ℚ := if p.1 then -mant else mant
    match d2.2 with
    | [] => some signed
    | 'e' :: r => parseExp signed r
    | 'E' :: r => parseExp signed r
    | _ => none

/-- One step of `data.split("\n", ...)`: drop everything up to and including
the first newline; `none` when the string holds no newline. -/
def dropLine : List Char → Option (List Char)
  | [] => none
  | c :: cs => if c = '\n' then some cs else dropLine cs

/-- `data.split("\n", n)[n]`: the remainder after the first `n` newline
characters; `none` models the `IndexError` raised when the split produces
fewer than `n + 1` parts. -/
def dropLines : Nat → List Char → Option (List Char)
  | 0, s => some s
  | n + 1, s =>
    match dropLine s with
    | none => none
    | some r => dropLines n r

/-- Python `str.splitlines()` for strings whose line breaks are `'\n'`:
split at each newline, dropping the final empty fragment produced by a
trailing newline (`"".splitlines() == []`, `"a\n".splitlines() == ["a"]`). -/
def pySplitlines : List Char → List (List Char)
  | [] => []
  | c :: rest =>
    if c = '\n' then [] :: pySplitlines rest
    else
      match pySplitlines rest with
      | [] => [[c]]
      | l :: ls => (c :: l) :: ls

/-- Sequential `Option`-valued map, stopping at the first failure — the
evaluation order of a Python loop of conversions. -/
def optMapM {α β : Type} (f : α → Option β) : List α → Option (List β)
  | [] => some []
  | a :: l =>
    match f a with
    | none => none
    | some b =>
      match optMapM f l with
      | none => none
      | some r => some (b :: r)

/-- Sequential `Except`-valued map, stopping at the first raised exception. -/
def excMapM {α β : Type} (f : α → Except PyError β) : List α → Except PyError (List β)
  | [] => .ok []
  | a :: l =>
    match f a with
    | .error e => .error e
    | .ok b =>
      match excMapM f l with
      | .error e => .error e
      | .ok r => .ok (b :: r)

/-- `float(s)` used as a conversion step: a failed parse raises `ValueError`. -/
def toFloat (s : List Char) : Except PyError ℚ :=
  match pyFloat s with
  | none => .error .valueError
  | some q => .ok q

/-- `np.asarray(strings, dtype=float)`: convert every entry, raising
`ValueError` at the first non-numeric one. -/
def toFloatArray (ts : List (List Char)) : Except PyError (List ℚ) :=
  excMapM toFloat ts

/-- Body of iteration `i` of the loop: `float(timestamps[i])`,
`float(timestamps[0])`, `float(cycle_time)` in source order, then
`abs(actual_timestamp - expected_timestamp)`. -/
def latencyAt (timestamps : List (List Char)) (cycle_time : List Char) (i : Nat) :
    Except PyError ℚ :=
  match pyFloat (timestamps.getD i []) with
  | none => .error .valueError
  | some ti =>
    match pyFloat (timestamps.getD 0 []) with
    | none => .error .valueError
    | some t0 =>
      match pyFloat cycle_time with
      | none => .error .valueError
      | some c => .ok |ti - (t0 + c * (i : ℚ))|

/-- The latency loop `for i in xrange(1, len(timestamps))`. -/
def computeLatency (timestamps : List (List Char)) (cycle_time : List Char) :
    Except PyError (List ℚ) :=
  excMapM (latencyAt timestamps cycle_time) (List.range' 1 (timestamps.length - 1))

/-- `parse_logfile` after the header has been removed and the data section
split into lines: the loop, `pop(0)`, the two array conversions, the
`x - x[0]` shift and the `y * 1000000` scaling. -/
def parseBody (timestamps : List (List Char)) (cycle_time : List Char) :
    Except PyError (List ℚ × List ℚ) :=
  match computeLatency timestamps cycle_time with
  | .error e => .error e
  | .ok latency =>
    match timestamps with
    | [] => .error .indexError
    | _ :: rest =>
      match toFloatArray rest with
      | .error e => .error e
      | .ok xs =>
        match xs with
        | [] => .error .indexError
        | x0 :: _ => .ok (xs.map (fun q => q - x0), latency.map (fun q => q * 1000000))

/-- `parse_logfile(filename, cycle_time)` on the file content `data`:
`data.split("\n", 6)[6].splitlines()` followed by `parseBody`. -/
def parse_logfile (data cycle_time : List Char) : Except PyError (List ℚ × List ℚ) :=
  match dropLines 6 data with
  | none => .error .indexError
  | some rest => parseBody (pySplitlines rest) cycle_time

/-- Concatenate lines, each terminated by a newline: a file whose final line
ends with `'\n'`. -/
def joinTerm : List (List Char) → List Char
  | [] => []
  | l :: ls => l ++ '\n' :: joinTerm ls

/-- Concatenate lines separated by newlines, with no trailing newline. -/
def joinNoTerm : List (List Char) → List Char
  | [] => []
  | [l] => l
  | l :: ls => l ++ '\n' :: joinNoTerm ls

/-- A logfile: the header lines, each newline-terminated, followed by the
data section. -/
def mkFile (header : List (List Char)) (body : List Char) : List Char :=
  joinTerm header ++ body

/-- A single line of a file contains no line-break character. -/
def lineOK (l : List Char) : Prop := '\n' ∉ l ∧ '\r' ∉ l

instance (l : List Char) : Decidable (lineOK l) := by
  unfold lineOK; infer_instance

/-! ### Splitting lemmas -/

theorem joinTerm_append (xs ys : List (List Char)) :
    joinTerm (xs ++ ys) = joinTerm xs ++ joinTerm ys := by
  induction xs with
  | nil => simp [joinTerm]
  | cons l ls ih => simp [joinTerm, ih]

theorem dropLine_append (l r : List Char) (h : '\n' ∉ l) :
    dropLine (l ++ '\n' :: r) = some r := by
  induction l with
  | nil => simp [dropLine]
  | cons c cs ih =>
    have hc : ¬ c = '\n' := fun e => h (e ▸ List.mem_cons_self c cs)
    simp only [List.cons_append, dropLine, if_neg hc]
    exact ih fun hm => h (List.mem_cons_of_mem _ hm)

theorem dropLines_joinTerm (header : List (List Char)) (body : List Char)
    (h : ∀ l ∈ header, '\n' ∉ l) :
    dropLines header.length (joinTerm header ++ body) = some body := by
  induction header with
  | nil => simp [joinTerm, dropLines]
  | cons l ls ih =>
    have h1 : '\n' ∉ l := h l (List.mem_cons_self l ls)
    simp only [joinTerm, List.length_cons, dropLines, List.cons_append, List.append_assoc]
    rw [dropLine_append _ _ h1]
    exact ih fun l' hl' => h l' (List.mem_cons_of_mem _ hl')

theorem pySplitlines_append (l r : List Char) (h : '\n' ∉ l) :
    pySplitlines (l ++ '\n' :: r) = l :: pySplitlines r := by
  induction l with
  | nil => simp [pySplitlines]
  | cons c cs ih =>
    have hc : ¬ c = '\n' := fun e => h (e ▸ List.mem_cons_self c cs)
    have ih' := ih fun hm => h (List.mem_cons_of_mem _ hm)
    simp only [List.cons_append, pySplitlines, if_neg hc, List.append_eq, ih']

theorem pySplitlines_singleton (l : List Char) (h : '\n' ∉ l) (hne : l ≠ []) :
    pySplitlines l = [l] := by
  induction l with
  | nil => exact absurd rfl hne
  | cons c cs ih =>
    have hc : ¬ c = '\n' := fun e => h (e ▸ List.mem_cons_self c cs)
    by_cases hcs : cs = []
    · subst hcs
      simp [pySplitlines, if_neg hc]
    · have ih' := ih (fun hm => h (List.mem_cons_of_mem _ hm)) hcs
      simp only [pySplitlines, if_neg hc, ih']

theorem pySplitlines_joinTerm (ts : List (List Char)) (h : ∀ l ∈ ts, '\n' ∉ l) :
    pySplitlines (joinTerm ts) = ts := by
  induction ts with
  | nil => simp [joinTerm, pySplitlines]
  | cons l ls ih =>
    have h1 : '\n' ∉ l := h l (List.mem_cons_self l ls)
    simp only [joinTerm]
    rw [pySplitlines_append _ _ h1, ih fun l' hl' => h l' (List.mem_cons_of_mem _ hl')]

theorem pySplitlines_joinNoTerm (ts : List (List Char)) (h : ∀ l ∈ ts, '\n' ∉ l)
    (hne : ts ≠ []) (hlast : ts.getLast? ≠ some []) :
    pySplitlines (joinNoTerm ts) = ts := by
  induction ts with
  | nil => exact absurd rfl hne
  | cons l ls ih =>
    cases ls with
    | nil =>
      have hl : l ≠ [] := by
        intro e
        exact hlast (by simp [e, List.getLast?])
      simpa [joinNoTerm] using
        pySplitlines_singleton l (h l (List.mem_cons_self l [])) hl
    | cons m ms =>
      have h1 : '\n' ∉ l := h l (List.mem_cons_self l (m :: ms))
      have hlast' : (m :: ms).getLast? ≠ some [] := by
        rwa [List.getLast?_cons_cons] at hlast
      have ih' := ih (fun l' hl' => h l' (List.mem_cons_of_mem _ hl')) (by simp) hlast'
      simp only [joinNoTerm]
      rw [pySplitlines_append _ _ h1, ih']

/-! ### Conversion-loop lemmas -/

theorem optMapM_length {α β : Type} {f : α → Option β} :
    ∀ {l : List α} {r : List β}, optMapM f l = some r → r.length = l.length := by
  intro l
  induction l with
  | nil => intro r h; simp [optMapM] at h; simp [← h]
  | cons a l ih =>
    intro r h
    simp only [optMapM] at h
    cases hfa : f a with
    | none => rw [hfa] at h; exact absurd h (by simp)
    | some b =>
      rw [hfa] at h
      cases hrec : optMapM f l with
      | none => rw [hrec] at h; exact absurd h (by simp)
      | some r' =>
        rw [hrec] at h
        cases h
        simp [ih hrec]

theorem optMapM_cons {α β : Type} {f : α → Option β} {a : α} {l : List α} {r : List β}
    (h : optMapM f (a :: l) = some r) :
    ∃ b r', f a = some b ∧ optMapM f l = some r' ∧ r = b :: r' := by
  simp only [optMapM] at h
  cases hfa : f a with
  | none => rw [hfa] at h; exact absurd h (by simp)
  | some b =>
    rw [hfa] at h
    cases hrec : optMapM f l with
    | none => rw [hrec] at h; exact absurd h (by simp)
    | some r' =>
      rw [hrec] at h
      cases h
      exact ⟨b, r', rfl, rfl, rfl⟩

theorem optMapM_getD {α β : Type} {f : α → Option β} (dα : α) (dβ : β) :
    ∀ {l : List α} {r : List β}, optMapM f l = some r →
      ∀ i, i < l.length → f (l.getD i dα) = some (r.getD i dβ) := by
  intro l
  induction l with
  | nil => intro r _ i hi; simp at hi
  | cons a l ih =>
    intro r h i hi
    obtain ⟨b, r', hfa, hrec, rfl⟩ := optMapM_cons h
    cases i with
    | zero => simpa [List.getD] using hfa
    | succ j =>
      simp only [List.length_cons, Nat.succ_lt_succ_iff] at hi
      simpa [List.getD] using ih hrec j hi

theorem optMapM_mem {α β : Type} {f : α → Option β} :
    ∀ {l : List α} {r : List β}, optMapM f l = some r →
      ∀ a ∈ l, ∃ b, f a = some b := by
  intro l
  induction l with
  | nil => intro r _ a ha; simp at ha
  | cons x l ih =>
    intro r h a ha
    obtain ⟨b, r', hfa, hrec, rfl⟩ := optMapM_cons h
    rcases List.mem_cons.mp ha with rfl | ha'
    · exact ⟨b, hfa⟩
    · exact ih hrec a ha'

theorem excMapM_ok_of_forall {α β : Type} {f : α → Except PyError β} {g : α → β} :
    ∀ {l : List α}, (∀ a ∈ l, f a = .ok (g a)) → excMapM f l = .ok (l.map g) := by
  intro l
  induction l with
  | nil => intro _; simp [excMapM]
  | cons a l ih =>
    intro h
    have ha := h a (List.mem_cons_self a l)
    have hrec := ih fun a' ha' => h a' (List.mem_cons_of_mem _ ha')
    simp only [excMapM, ha, hrec, List.map]

theorem excMapM_error_val {α β : Type} {f : α → Except PyError β}
    (hf : ∀ a e, f a = .error e → e = .valueError) :
    ∀ {l : List α} {e : PyError}, excMapM f l = .error e → e = .valueError := by
  intro l
  induction l with
  | nil => intro e h; simp [excMapM] at h
  | cons a l ih =>
    intro e h
    simp only [excMapM] at h
    cases hfa : f a with
    | error e' =>
      rw [hfa] at h
      cases h
      exact hf a e hfa
    | ok b =>
      rw [hfa] at h
      cases hrec : excMapM f l with
      | error e' =>
        rw [hrec] at h
        cases h
        exact ih hrec
      | ok r => rw [hrec] at h; exact absurd h (by simp)

theorem excMapM_ok_forall {α β : Type} {f : α → Except PyError β} :
    ∀ {l : List α} {r : List β}, excMapM f l = .ok r → ∀ a ∈ l, ∃ b, f a = .ok b := by
  intro l
  induction l with
  | nil => intro r _ a ha; simp at ha
  | cons x l ih =>
    intro r h a ha
    simp only [excMapM] at h
    cases hfa : f x with
    | error e => rw [hfa] at h; exact absurd h (by simp)
    | ok b =>
      rw [hfa] at h
      cases hrec : excMapM f l with
      | error e => rw [hrec] at h; exact absurd h (by simp)
      | ok r' =>
        rcases List.mem_cons.mp ha with rfl | ha'
        · exact ⟨b, hfa⟩
        · exact ih hrec a ha'

theorem toFloatArray_of_optMapM :
    ∀ {ts : List (List Char)} {qs : List ℚ}, optMapM pyFloat ts = some qs →
      toFloatArray ts = .ok qs := by
  intro ts
  induction ts with
  | nil =>
    intro qs h
    simp only [optMapM] at h
    cases h
    rfl
  | cons t ts ih =>
    intro qs h
    obtain ⟨q, qs', hft, hrec, rfl⟩ := optMapM_cons h
    simp only [toFloatArray, excMapM, toFloat, hft]
    have := ih hrec
    simp only [toFloatArray] at this
    simp [this]

/-! ### Stage lemmas for `parse_logfile` -/

theorem latencyAt_ok {ts : List (List Char)} {cycle : List Char} {qs : List ℚ} {c : ℚ}
    (hq : optMapM pyFloat ts = some qs) (hc : pyFloat cycle = some c)
    {i : Nat} (h1 : 1 ≤ i) (h2 : i < ts.length) :
    latencyAt ts cycle i = .ok |qs.getD i 0 - (qs.getD 0 0 + c * (i : ℚ))| := by
  have hi := optMapM_getD ([] : List Char) (0 : ℚ) hq i h2
  have h0 := optMapM_getD ([] : List Char) (0 : ℚ) hq 0 (Nat.lt_of_lt_of_le h1 (Nat.le_of_lt h2))
  simp only [latencyAt, hi, h0, hc]

theorem computeLatency_ok {ts : List (List Char)} {cycle : List Char} {qs : List ℚ} {c : ℚ}
    (hq : optMapM pyFloat ts = some qs) (hc : pyFloat cycle = some c) :
    computeLatency ts cycle =
      .ok ((List.range' 1 (ts.length - 1)).map
        fun i => |qs.getD i 0 - (qs.getD 0 0 + c * (i : ℚ))|) := by
  apply excMapM_ok_of_forall
  intro i hi
  obtain ⟨j, hj, rfl⟩ := List.mem_range'.mp hi
  have h1 : 1 ≤ 1 + 1 * j := by omega
  have h2 : 1 + 1 * j < ts.length := by omega
  exact latencyAt_ok hq hc h1 h2

theorem latencyAt_error_val (ts : List (List Char)) (cycle : List Char) (i : Nat) (e : PyError)
    (h : latencyAt ts cycle i = .error e) : e = .valueError := by
  unfold latencyAt at h
  split at h
  · cases h; rfl
  · split at h
    · cases h; rfl
    · split at h
      · cases h; rfl
      · exact absurd h (by simp)

theorem latencyAt_ok_parses {ts : List (List Char)} {cycle : List Char} {i : Nat} {q : ℚ}
    (h : latencyAt ts cycle i = .ok q) :
    (∃ a, pyFloat (ts.getD i []) = some a) ∧ ∃ b, pyFloat (ts.getD 0 []) = some b := by
  unfold latencyAt at h
  split at h
  · exact absurd h (by simp)
  · split at h
    · exact absurd h (by simp)
    · split at h
      · exact absurd h (by simp)
      · exact ⟨⟨_, by assumption⟩, _, by assumption⟩

theorem computeLatency_badline {ts : List (List Char)} {cycle : List Char}
    (hlen : 2 ≤ ts.length) (hbad : ∃ l ∈ ts, pyFloat l = none) :
    computeLatency ts cycle = .error .valueError := by
  obtain ⟨l, hmem, hnone⟩ := hbad
  obtain ⟨j, hj, rfl⟩ := List.mem_iff_getElem.mp hmem
  have hgetD : pyFloat (ts.getD j []) = none := by
    rwa [List.getD_eq_getElem ts [] hj]
  cases hres : computeLatency ts cycle with
  | error e =>
    rw [excMapM_error_val (latencyAt_error_val ts cycle) hres]
  | ok r =>
    exfalso
    have hall := excMapM_ok_forall hres
    by_cases hj0 : j = 0
    · have hmem1 : 1 ∈ List.range' 1 (ts.length - 1) := by
        rw [List.mem_range']
        exact ⟨0, by omega, by omega⟩
      obtain ⟨q, hq⟩ := hall 1 hmem1
      obtain ⟨_, b, hb⟩ := latencyAt_ok_parses hq
      rw [hj0] at hgetD
      rw [hgetD] at hb
      exact absurd hb (by simp)
    · have hmemj : j ∈ List.range' 1 (ts.length - 1) := by
        rw [List.mem_range']
        exact ⟨j - 1, by omega, by omega⟩
      obtain ⟨q, hq⟩ := hall j hmemj
      obtain ⟨⟨a, ha⟩, _⟩ := latencyAt_ok_parses hq
      rw [hgetD] at ha
      exact absurd ha (by simp)

theorem parse_logfile_mkFile (hdr : List (List Char)) (body cycle : List Char)
    (hhl : hdr.length = 6) (hhnl : ∀ l ∈ hdr, '\n' ∉ l) :
    parse_logfile (mkFile hdr body) cycle = parseBody (pySplitlines body) cycle := by
  unfold parse_logfile mkFile
  rw [← hhl, dropLines_joinTerm hdr body hhnl]

theorem parseBody_badline {ts : List (List Char)} {cycle : List Char}
    (hlen : 2 ≤ ts.length) (hbad : ∃ l ∈ ts, pyFloat l = none) :
    parseBody ts cycle = .error .valueError := by
  unfold parseBody
  rw [computeLatency_badline hlen hbad]

theorem parseBody_ok {ts : List (List Char)} {cycle : List Char} {qs : List ℚ} {c : ℚ}
    (hlen : 2 ≤ ts.length)
    (hq : optMapM pyFloat ts = some qs) (hc : pyFloat cycle = some c) :
    parseBody ts cycle =
      .ok ((qs.drop 1).map (fun q => q - qs.getD 1 0),
           (List.range' 1 (ts.length - 1)).map
             fun i => |qs.getD i 0 - (qs.getD 0 0 + c * (i : ℚ))| * 1000000) := by
  obtain ⟨t0, ts1, rfl⟩ : ∃ t0 ts1, ts = t0 :: ts1 := by
    cases ts with
    | nil => simp at hlen
    | cons a l => exact ⟨a, l, rfl⟩
  obtain ⟨t1, ts2, rfl⟩ : ∃ t1 ts2, ts1 = t1 :: ts2 := by
    cases ts1 with
    | nil => simp at hlen
    | cons a l => exact ⟨a, l, rfl⟩
  obtain ⟨q0, qs1, hf0, hq1, rfl⟩ := optMapM_cons hq
  obtain ⟨q1, qs2, hf1, hq2, rfl⟩ := optMapM_cons hq1
  have hxs : toFloatArray (t1 :: ts2) = .ok (q1 :: qs2) := toFloatArray_of_optMapM hq1
  unfold parseBody
  rw [computeLatency_ok hq hc]
  simp only [hxs, List.map_map, List.drop_succ_cons, List.drop_zero, List.getD_cons_succ,
    List.getD_cons_zero, Function.comp]
  rfl

theorem getD_drop_one {α : Type} (d : α) :
    ∀ (l : List α) (j : Nat), (l.drop 1).getD j d = l.getD (j + 1) d
  | [], j => by simp
  | a :: l, j => by simp

theorem getD_map_lt {α β : Type} (f : α → β) (d : β) (e : α) {l : List α} {j : Nat}
    (h : j < l.length) : (l.map f).getD j d = f (l.getD j e) := by
  rw [List.getD_eq_getElem _ d (by simpa using h), List.getElem_map,
    List.getD_eq_getElem _ e h]

/-- C1: for a file of exactly 6 header lines followed by N ≥ 2 timestamp
lines whose values are t_0, ..., t_{N-1}, and a parseable cycle_time c,
`parse_logfile` returns arrays x, y with x[j] = t_{j+1} - t_1 and
y[j] = 1000000 * |t_{j+1} - (t_0 + c * (j+1))| for every j ≤ N-2. -/
theorem C1_parse_logfile_values (hdr ts : List (List Char)) (cycle : List Char)
    (qs : List ℚ) (c : ℚ)
    (hhl : hdr.length = 6) (hhnl : ∀ l ∈ hdr, '\n' ∉ l)
    (htl : ∀ l ∈ ts, lineOK l) (hlen : 2 ≤ ts.length)
    (hq : optMapM pyFloat ts = some qs) (hc : pyFloat cycle = some c) :
    ∃ x y, parse_logfile (mkFile hdr (joinTerm ts)) cycle = .ok (x, y) ∧
      ∀ j, j + 1 < ts.length →
        x.getD j 0 = qs.getD (j + 1) 0 - qs.getD 1 0 ∧
        y.getD j 0 = 1000000 * |qs.getD (j + 1) 0 - (qs.getD 0 0 + c * ((j : ℚ) + 1))| := by
  have hqlen : qs.length = ts.length := optMapM_length hq
  rw [parse_logfile_mkFile hdr _ cycle hhl hhnl,
    pySplitlines_joinTerm ts fun l hl => (htl l hl).1]
  refine ⟨_, _, parseBody_ok hlen hq hc, ?_⟩
  intro j hj
  constructor
  · have hx1 : j < (qs.drop 1).length := by
      simp only [List.length_drop]
      omega
    rw [getD_map_lt _ _ 0 hx1, getD_drop_one]
  · have hy1 : j < (List.range' 1 (ts.length - 1)).length := by
      simp only [List.length_range']
      omega
    rw [getD_map_lt _ _ 0 hy1, List.getD_eq_getElem _ 0 hy1, List.getElem_range']
    have h1j : 1 + 1 * j = j + 1 := by omega
    rw [h1j, mul_comm]
    push_cast
    ring_nf

theorem pyFloat_nil : pyFloat [] = none := by decide

set_option maxRecDepth 1600

/-! ### Concrete inputs used by witnesses -/

def hdrW : List (List Char) :=
  ["h0".data, "h1".data, "h2".data, "h3".data, "h4".data, "h5".data]

def hdrW2 : List (List Char) :=
  ["k0".data, "k1".data, "k2".data, "k3".data, "k4".data, "k5".data]

def tsW : List (List Char) := ["10.0".data, "10.1".data, "10.25".data]

def qsW : List ℚ := [10, 101 / 10, 41 / 4]

def tsE : List (List Char) := ["10.0".data, "10.1".data, "10.2".data]

def qsE : List ℚ := [10, 101 / 10, 51 / 5]

/-- Witness for C1 at the concrete scenario of the specification. -/
theorem C1_parse_logfile_values_witness :
    ∃ x y, parse_logfile (mkFile hdrW (joinTerm tsW)) ("0.1").data = .ok (x, y) ∧
      ∀ j, j + 1 < tsW.length →
        x.getD j 0 = qsW.getD (j + 1) 0 - qsW.getD 1 0 ∧
        y.getD j 0 = 1000000 *
          |qsW.getD (j + 1) 0 - (qsW.getD 0 0 + (1 / 10) * ((j : ℚ) + 1))| :=
  C1_parse_logfile_values hdrW tsW ("0.1").data qsW (1 / 10)
    (by with_unfolding_all decide) (by with_unfolding_all decide) (by with_unfolding_all decide) (by with_unfolding_all decide) (by with_unfolding_all decide) (by with_unfolding_all decide)

/-- C2 (counterexample): on a file with 6 header lines and exactly one
timestamp line, `parse_logfile` does not return empty arrays — it raises
`IndexError` (from `x - x[0]` on an empty array). -/
theorem C2_single_sample_counterexample :
    parse_logfile (mkFile hdrW (joinTerm [("10.0").data])) ("0.1").data
        = .error .indexError ∧
      parse_logfile (mkFile hdrW (joinTerm [("10.0").data])) ("0.1").data
        ≠ .ok ([], []) := by
  decide

/-- C2 (amended): for every file of 6 header lines plus exactly one
timestamp line, `parse_logfile` raises `IndexError` (the latency loop is
empty, `pop(0)` leaves an empty list, and `x - x[0]` indexes an empty
array) instead of returning empty arrays. -/
theorem C2_single_sample_index_error (hdr : List (List Char)) (t cycle : List Char)
    (hhl : hdr.length = 6) (hhnl : ∀ l ∈ hdr, '\n' ∉ l) (ht : lineOK t) :
    parse_logfile (mkFile hdr (joinTerm [t])) cycle = .error .indexError := by
  rw [parse_logfile_mkFile hdr _ cycle hhl hhnl,
    pySplitlines_joinTerm [t] (by intro l hl; rcases List.mem_singleton.mp hl with rfl; exact ht.1)]
  rfl

theorem C2_single_sample_index_error_witness :
    parse_logfile (mkFile hdrW2 (joinTerm [("3.5").data])) ("0.2").data
      = .error .indexError :=
  C2_single_sample_index_error hdrW2 ("3.5").data ("0.2").data
    (by with_unfolding_all decide) (by with_unfolding_all decide) (by with_unfolding_all decide)

/-- C3: on every valid input (6 headers, N ≥ 2 parseable timestamp lines,
parseable cycle_time) the two returned arrays have equal length N - 1. -/
theorem C3_equal_lengths (hdr ts : List (List Char)) (cycle : List Char)
    (qs : List ℚ) (c : ℚ)
    (hhl : hdr.length = 6) (hhnl : ∀ l ∈ hdr, '\n' ∉ l)
    (htl : ∀ l ∈ ts, lineOK l) (hlen : 2 ≤ ts.length)
    (hq : optMapM pyFloat ts = some qs) (hc : pyFloat cycle = some c) :
    ∃ x y, parse_logfile (mkFile hdr (joinTerm ts)) cycle = .ok (x, y) ∧
      x.length = y.length ∧ x.length = ts.length - 1 := by
  have hqlen : qs.length = ts.length := optMapM_length hq
  rw [parse_logfile_mkFile hdr _ cycle hhl hhnl,
    pySplitlines_joinTerm ts fun l hl => (htl l hl).1]
  refine ⟨_, _, parseBody_ok hlen hq hc, ?_, ?_⟩
  · simp [List.length_map, List.length_drop, List.length_range', hqlen]
  · simp [List.length_map, List.length_drop, hqlen]

theorem C3_equal_lengths_witness :
    ∃ x y, parse_logfile (mkFile hdrW (joinTerm tsW)) ("0.1").data = .ok (x, y) ∧
      x.length = y.length ∧ x.length = tsW.length - 1 :=
  C3_equal_lengths hdrW tsW ("0.1").data qsW (1 / 10)
    (by with_unfolding_all decide) (by with_unfolding_all decide) (by with_unfolding_all decide) (by with_unfolding_all decide) (by with_unfolding_all decide) (by with_unfolding_all decide)

/-- C4: whenever `parse_logfile` returns a result, the x array is nonempty
and its first element is 0 (the shift `x - x[0]` forces this). -/
theorem C4_first_x_zero (data cycle : List Char) (x y : List ℚ)
    (h : parse_logfile data cycle = .ok (x, y)) : x.head? = some 0 := by
  unfold parse_logfile at h
  split at h
  · simp at h
  · unfold parseBody at h
    split at h
    · simp at h
    · split at h
      · simp at h
      · split at h
        · simp at h
        · split at h
          · simp at h
          · simp only [Except.ok.injEq, Prod.mk.injEq] at h
            obtain ⟨hx, hy⟩ := h
            rw [← hx]
            simp

theorem parse_two_samples :
    parse_logfile (mkFile hdrW (joinTerm [("10.0").data, ("10.1").data])) ("0.1").data
      = .ok ([0], [0]) := by
  have hq : optMapM pyFloat [("10.0").data, ("10.1").data] = some [10, mkRat 101 10] := by
    with_unfolding_all decide
  have hc : pyFloat ("0.1").data = some (mkRat 1 10) := by
    with_unfolding_all decide
  rw [parse_logfile_mkFile hdrW _ _ (by decide) (by decide),
    pySplitlines_joinTerm _ (by decide), parseBody_ok (by decide) hq hc]
  have h1 : List.length [("10.0").data, ("10.1").data] - 1 = 1 := by decide
  rw [h1]
  norm_num [List.range', Rat.mkRat_eq_div]

theorem C4_first_x_zero_witness :
    parse_logfile (mkFile hdrW (joinTerm [("10.0").data, ("10.1").data])) ("0.1").data
        = .ok ([0], [0]) ∧
      ([(0 : ℚ)].head? = some 0) :=
  ⟨parse_two_samples,
    C4_first_x_zero (mkFile hdrW (joinTerm [("10.0").data, ("10.1").data]))
      ("0.1").data [0] [0] parse_two_samples⟩

/-- C5: when every timestamp matches the idealized schedule
t_i = t_0 + c * i exactly, every element of the returned y array is 0. -/
theorem C5_perfect_schedule_zero_latency (hdr ts : List (List Char)) (cycle : List Char)
    (qs : List ℚ) (c : ℚ)
    (hhl : hdr.length = 6) (hhnl : ∀ l ∈ hdr, '\n' ∉ l)
    (htl : ∀ l ∈ ts, lineOK l) (hlen : 2 ≤ ts.length)
    (hq : optMapM pyFloat ts = some qs) (hc : pyFloat cycle = some c)
    (hsched : ∀ i, i < ts.length → qs.getD i 0 = qs.getD 0 0 + c * (i : ℚ)) :
    ∃ x y, parse_logfile (mkFile hdr (joinTerm ts)) cycle = .ok (x, y) ∧
      ∀ q ∈ y, q = 0 := by
  rw [parse_logfile_mkFile hdr _ cycle hhl hhnl,
    pySplitlines_joinTerm ts fun l hl => (htl l hl).1]
  refine ⟨_, _, parseBody_ok hlen hq hc, ?_⟩
  intro q hqmem
  obtain ⟨i, hi, rfl⟩ := List.mem_map.mp hqmem
  obtain ⟨k, hk, rfl⟩ := List.mem_range'.mp hi
  have hilt : 1 + 1 * k < ts.length := by omega
  rw [hsched (1 + 1 * k) hilt]
  simp

theorem C5_perfect_schedule_zero_latency_witness :
    ∃ x y, parse_logfile (mkFile hdrW (joinTerm tsE)) ("0.1").data = .ok (x, y) ∧
      ∀ q ∈ y, q = 0 :=
  C5_perfect_schedule_zero_latency hdrW tsE ("0.1").data qsE (1 / 10)
    (by with_unfolding_all decide) (by with_unfolding_all decide) (by with_unfolding_all decide) (by with_unfolding_all decide) (by with_unfolding_all decide) (by with_unfolding_all decide) (by with_unfolding_all decide)

/-- C6: on a file with 6 header lines and at least 2 timestamp lines of
which some line is not interpretable as a float, `parse_logfile` fails
with a numeric-conversion error (`ValueError`) instead of returning
arrays. -/
theorem C6_malformed_line_value_error (hdr ts : List (List Char)) (cycle : List Char)
    (hhl : hdr.length = 6) (hhnl : ∀ l ∈ hdr, '\n' ∉ l)
    (htl : ∀ l ∈ ts, lineOK l) (hlen : 2 ≤ ts.length)
    (hbad : ∃ l ∈ ts, pyFloat l = none) :
    parse_logfile (mkFile hdr (joinTerm ts)) cycle = .error .valueError := by
  rw [parse_logfile_mkFile hdr _ cycle hhl hhnl,
    pySplitlines_joinTerm ts fun l hl => (htl l hl).1]
  exact parseBody_badline hlen hbad

theorem C6_malformed_line_value_error_witness :
    parse_logfile (mkFile hdrW (joinTerm [("10.0").data, ("abc").data])) ("0.1").data
      = .error .valueError :=
  C6_malformed_line_value_error hdrW [("10.0").data, ("abc").data] ("0.1").data
    (by with_unfolding_all decide) (by with_unfolding_all decide) (by with_unfolding_all decide) (by with_unfolding_all decide) (by with_unfolding_all decide)

/-- C7: with 6 arbitrary header lines, data lines "10.0", "10.1", "10.25"
and cycle_time "0.1", `parse_logfile` returns x = [0, 0.15] and
y = [0, 50000]. -/
theorem C7_concrete_scenario (hdr : List (List Char))
    (hhl : hdr.length = 6) (hhnl : ∀ l ∈ hdr, '\n' ∉ l) :
    parse_logfile (mkFile hdr (joinTerm tsW)) ("0.1").data
      = .ok ([0, 0.15], [0, 50000]) := by
  have hq : optMapM pyFloat tsW = some [10, mkRat 101 10, mkRat 41 4] := by
    with_unfolding_all decide
  have hc : pyFloat ("0.1").data = some (mkRat 1 10) := by
    with_unfolding_all decide
  rw [parse_logfile_mkFile hdr _ _ hhl hhnl,
    pySplitlines_joinTerm tsW (by decide), parseBody_ok (by decide) hq hc]
  have h2 : tsW.length - 1 = 2 := by decide
  rw [h2]
  norm_num [List.range', Rat.mkRat_eq_div]
  rw [abs_of_nonneg (by norm_num)]
  norm_num

theorem C7_concrete_scenario_witness :
    parse_logfile (mkFile hdrW2 (joinTerm tsW)) ("0.1").data
      = .ok ([0, 0.15], [0, 50000]) :=
  C7_concrete_scenario hdrW2 (by with_unfolding_all decide) (by with_unfolding_all decide)

/-- C8: `parse_logfile` is a pure function of the file content and the
cycle_time string — two invocations on the same inputs yield the same
arrays. -/
theorem C8_deterministic (data cycle : List Char) :
    parse_logfile data cycle = parse_logfile data cycle := rfl

/-- C9: the content of the 6 header lines does not influence the result:
two files differing only in their 6 header lines parse identically. -/
theorem C9_header_independent (hdr1 hdr2 : List (List Char)) (body cycle : List Char)
    (h1l : hdr1.length = 6) (h1nl : ∀ l ∈ hdr1, '\n' ∉ l)
    (h2l : hdr2.length = 6) (h2nl : ∀ l ∈ hdr2, '\n' ∉ l) :
    parse_logfile (mkFile hdr1 body) cycle = parse_logfile (mkFile hdr2 body) cycle := by
  rw [parse_logfile_mkFile hdr1 body cycle h1l h1nl,
    parse_logfile_mkFile hdr2 body cycle h2l h2nl]

theorem C9_header_independent_witness :
    parse_logfile (mkFile hdrW (joinTerm tsW)) ("0.1").data
      = parse_logfile (mkFile hdrW2 (joinTerm tsW)) ("0.1").data :=
  C9_header_independent hdrW hdrW2 (joinTerm tsW) ("0.1").data
    (by with_unfolding_all decide) (by with_unfolding_all decide) (by with_unfolding_all decide) (by with_unfolding_all decide)

/-- C10: one trailing newline after the last timestamp line is tolerated
(the final empty fragment is dropped by `splitlines`), but an extra blank
line — at the end or inside the data section — reaches `float("")` and
fails with a conversion error (`ValueError`) rather than being skipped. -/
theorem C10_trailing_newline_and_blank_lines (hdr ts : List (List Char))
    (cycle : List Char) (a b : List (List Char))
    (hhl : hdr.length = 6) (hhnl : ∀ l ∈ hdr, '\n' ∉ l)
    (htl : ∀ l ∈ ts, lineOK l) (hlen : 2 ≤ ts.length)
    (hts : ∀ l ∈ ts, (pyFloat l).isSome)
    (hab : ts = a ++ b) :
    parse_logfile (mkFile hdr (joinNoTerm ts)) cycle
        = parse_logfile (mkFile hdr (joinTerm ts)) cycle
      ∧ parse_logfile (mkFile hdr (joinTerm ts ++ ['\n'])) cycle = .error .valueError
      ∧ parse_logfile (mkFile hdr (joinTerm (a ++ [] :: b))) cycle = .error .valueError := by
  have hne : ts ≠ [] := by
    intro e
    rw [e] at hlen
    simp at hlen
  have hnl : ∀ l ∈ ts, '\n' ∉ l := fun l hl => (htl l hl).1
  have hlast : ts.getLast? ≠ some [] := by
    intro hg
    have hq := hts [] (List.mem_of_getLast?_eq_some hg)
    rw [pyFloat_nil] at hq
    simp at hq
  refine ⟨?_, ?_, ?_⟩
  · rw [parse_logfile_mkFile hdr _ cycle hhl hhnl,
      parse_logfile_mkFile hdr _ cycle hhl hhnl,
      pySplitlines_joinTerm ts hnl, pySplitlines_joinNoTerm ts hnl hne hlast]
  · have hjt : joinTerm ts ++ ['\n'] = joinTerm (ts ++ [[]]) := by
      rw [joinTerm_append]
      rfl
    rw [hjt, parse_logfile_mkFile hdr _ cycle hhl hhnl,
      pySplitlines_joinTerm (ts ++ [[]]) ?hnl2]
    case hnl2 =>
      intro l hl
      rcases List.mem_append.mp hl with h1 | h2
      · exact hnl l h1
      · rcases List.mem_singleton.mp h2 with rfl
        simp
    apply parseBody_badline
    · simp
      omega
    · exact ⟨[], by simp, pyFloat_nil⟩
  · rw [parse_logfile_mkFile hdr _ cycle hhl hhnl,
      pySplitlines_joinTerm (a ++ [] :: b) ?hnl3]
    case hnl3 =>
      intro l hl
      rcases List.mem_append.mp hl with h1 | h2
      · exact hnl l (hab ▸ List.mem_append.mpr (Or.inl h1))
      · rcases List.mem_cons.mp h2 with rfl | h3
        · simp
        · exact hnl l (hab ▸ List.mem_append.mpr (Or.inr h3))
    apply parseBody_badline
    · have : ts.length = a.length + b.length := by rw [hab]; simp
      simp
      omega
    · exact ⟨[], by simp, pyFloat_nil⟩

theorem C10_trailing_newline_and_blank_lines_witness :
    (parse_logfile (mkFile hdrW (joinNoTerm tsE)) ("0.1").data
        = parse_logfile (mkFile hdrW (joinTerm tsE)) ("0.1").data)
      ∧ parse_logfile (mkFile hdrW (joinTerm tsE ++ ['\n'])) ("0.1").data
        = .error .valueError
      ∧ parse_logfile (mkFile hdrW (joinTerm ([("10.0").data] ++ [] :: [("10.1").data, ("10.2").data])))
          ("0.1").data = .error .valueError :=
  C10_trailing_newline_and_blank_lines hdrW tsE ("0.1").data
    [("10.0").data] [("10.1").data, ("10.2").data]
    (by with_unfolding_all decide) (by with_unfolding_all decide) (by with_unfolding_all decide) (by with_unfolding_all decide) (by with_unfolding_all decide) (by with_unfolding_all decide)
